import Mathlib

/-!
# Shallow embedding of the ShieldCoin blockchain core

This file embeds the Python sources under `src/blockchain/` into Lean 4 and
proves properties of the embedded operations.

Modelling conventions:
* Python `float` amounts and timestamps are modelled as `ℚ` (exact values; the
  claims under study never exercise float rounding).
* Python `None`-able arguments and dictionary keys are modelled as `Option`.
* SHA-256 composed with the canonical `json.dumps(..., sort_keys=True)`
  serialization is modelled as an abstract function `HashFn` from the hashed
  block data to a hex string; theorems quantify over it. A concrete
  instantiation (`hashModel`) is provided so that statements can be evaluated
  at concrete inputs.
* RSA signature verification (`pkcs1_15.verify` together with key import) is
  modelled as an abstract predicate `rsaOk : Transaction → Bool`; the
  source-level control flow around it (system sender, missing signature,
  amount bounds) is embedded explicitly.
* Exceptions are modelled with `Except String` / `Option`; a raised Python
  exception corresponds to `Except.error` / `none`.
-/

namespace ShieldCoin

/-- Python truthiness of an optional string: `None` and `""` are falsy. -/
def sigTruthy : Option String → Bool
  | none => false
  | some s => s ≠ ""

/-- `a or b` on optional strings (Python `or`: first operand if truthy). -/
def pyOrStr (a b : Option String) : Option String :=
  if sigTruthy a then a else b

/-- `timestamp or time.time()`: `None` and `0` fall back to the current time. -/
def tsOr (ts : Option ℚ) (now : ℚ) : ℚ :=
  match ts with
  | none => now
  | some t => if t = 0 then now else t

/-- `Transaction.MIN_AMOUNT` (`decimal.Decimal('0.00000001')`, i.e.
1 / 10^8). -/
def MIN_AMOUNT : ℚ := mkRat 1 100000000

/-- `Transaction.MAX_AMOUNT` (1 billion units). -/
def MAX_AMOUNT : ℚ := 1000000000

/-- In-memory `Transaction` object (`transaction.py`). -/
structure Transaction where
  sender : String
  recipient : String
  amount : ℚ
  timestamp : ℚ
  signature : Option String
  deriving DecidableEq, Repr, Inhabited

/-- Serialized transaction dictionary. Each field is `none` when the key is
absent. `fromKey`/`toKey` model the alternative `'from'`/`'to'` keys accepted
by `Transaction.from_dict`. -/
structure TxData where
  sender : Option String
  fromKey : Option String
  recipient : Option String
  toKey : Option String
  amount : Option ℚ
  timestamp : Option ℚ
  signature : Option String
  deriving DecidableEq, Repr, Inhabited

/-- `Transaction.__init__`: validates sender/recipient non-emptiness and the
amount bounds; stores `timestamp or time.time()`. All amount failures are
re-raised as a single `ValueError` by the surrounding `try`. -/
def Transaction.init (sender recipient : String) (amount : ℚ) (ts : Option ℚ)
    (sig : Option String) (now : ℚ) : Except String Transaction :=
  if sender = "" then .error "Sender must be a valid string"
  else if recipient = "" then .error "Recipient must be a valid string"
  else if amount ≤ 0 then .error "Invalid amount format"
  else if amount < MIN_AMOUNT then .error "Invalid amount format"
  else if MAX_AMOUNT < amount then .error "Invalid amount format"
  else .ok { sender := sender, recipient := recipient, amount := amount,
             timestamp := tsOr ts now, signature := sig }

/-- `Transaction.to_dict`: all four data fields are always emitted; the
`signature` key is emitted only when the signature is truthy. -/
def Transaction.toData (t : Transaction) : TxData :=
  { sender := some t.sender, fromKey := none,
    recipient := some t.recipient, toKey := none,
    amount := some t.amount, timestamp := some t.timestamp,
    signature := if sigTruthy t.signature then t.signature else none }

/-- `Transaction.from_dict`: accepts `'sender'`/`'from'` and
`'recipient'`/`'to'`, requires an amount, pre-checks positivity, then calls
the constructor. Every failure is a `ValueError` (`Except.error`). -/
def Transaction.from_dict (now : ℚ) (d : TxData) : Except String Transaction :=
  let sender? := pyOrStr d.sender d.fromKey
  let recipient? := pyOrStr d.recipient d.toKey
  if ¬ sigTruthy sender? ∨ ¬ sigTruthy recipient? then
    .error "Transaction must have sender and recipient"
  else match d.amount with
    | none => .error "Transaction must have an amount"
    | some a =>
        if a ≤ 0 then .error "Invalid transaction data: Amount must be positive"
        else Transaction.init (sender?.getD "") (recipient?.getD "") a
          d.timestamp d.signature now

/-- `Transaction.verify` with the RSA check abstracted as `rsaOk` (the
source returns `False` on any exception inside the RSA part, so `rsaOk`
is total). The system-sender shortcut, the missing-signature rejection and
the amount re-check are embedded from the source. -/
def Transaction.verify (rsaOk : Transaction → Bool) (t : Transaction) : Bool :=
  if t.sender = "system" then true
  else if ¬ sigTruthy t.signature then false
  else if t.amount ≤ 0 ∨ t.amount < MIN_AMOUNT ∨ MAX_AMOUNT < t.amount then false
  else rsaOk t

/-- `Transaction.get_hash`: SHA-256 of the canonical JSON of `to_dict()`
(signature included when present), abstracted as a function `sha` of the
serialized dictionary. -/
def Transaction.get_hash (sha : TxData → String) (t : Transaction) : String :=
  sha t.toData

/-- A string of `n` zero characters (`'0' * n` in Python). -/
def zeros (n : Nat) : String :=
  String.mk (List.replicate n '0')

/-- Python `str.startswith`. -/
def strStartsWith (pre s : String) : Bool :=
  pre.data.isPrefixOf s.data

/-- In-memory `Block` object (`block.py`). -/
structure Block where
  index : Int
  transactions : List Transaction
  previous_hash : String
  timestamp : ℚ
  nonce : Int
  hash : String
  deriving DecidableEq, Repr, Inhabited

/-- The data hashed by `Block.calculate_hash`: the dictionary
`{index, timestamp, previous_hash, nonce, transactions-as-dicts}`. -/
structure BlockData where
  index : Int
  timestamp : ℚ
  previous_hash : String
  nonce : Int
  transactions : List TxData
  deriving DecidableEq, Repr

/-- Abstract model of `sha256(json.dumps(block_data, sort_keys=True))`:
a function from the hashed block data to a hex string. -/
def HashFn : Type := BlockData → String

/-- The `block_data` dictionary built inside `Block.calculate_hash`. -/
def blockData (index : Int) (timestamp : ℚ) (previous_hash : String)
    (nonce : Int) (transactions : List Transaction) : BlockData :=
  { index := index, timestamp := timestamp, previous_hash := previous_hash,
    nonce := nonce, transactions := transactions.map Transaction.toData }

/-- `Block.calculate_hash`. -/
def Block.calculate_hash (H : HashFn) (b : Block) : String :=
  H (blockData b.index b.timestamp b.previous_hash b.nonce b.transactions)

/-- `Block.__init__`: stores the fields (`timestamp or time.time()`,
`hash or self.calculate_hash()`), then validates `index ≥ 0` and
`len(previous_hash) == 64`. Note the source checks only the LENGTH of
`previous_hash`, not that its characters are hexadecimal. -/
def Block.init (H : HashFn) (now : ℚ) (index : Int)
    (transactions : List Transaction) (previous_hash : String)
    (ts : Option ℚ) (nonce : Int) (hash? : Option String) :
    Except String Block :=
  let timestamp := tsOr ts now
  let computed := H (blockData index timestamp previous_hash nonce transactions)
  let h := match hash? with
    | some s => if s = "" then computed else s
    | none => computed
  if index < 0 then .error "Block index must be a non-negative integer"
  else if previous_hash.length ≠ 64 then
    .error "Previous hash must be a 64-character string"
  else .ok { index := index, transactions := transactions,
             previous_hash := previous_hash, timestamp := timestamp,
             nonce := nonce, hash := h }

/-- The hash `Block.mine_block` computes when `self.nonce = n`: the other
hashed fields of the block are left untouched by the loop. -/
def hashAtNonce (H : HashFn) (b : Block) (n : Nat) : String :=
  H (blockData b.index b.timestamp b.previous_hash (n : Int) b.transactions)

/-- The `for i in range(max_nonce)` loop of `Block.mine_block`, starting at
nonce `i` with `fuel` iterations remaining. `none` models the terminal
`RuntimeError`. -/
def mineLoop (H : HashFn) (target : String) (b : Block) :
    Nat → Nat → Option Block
  | _, 0 => none
  | i, fuel + 1 =>
      let h := hashAtNonce H b i
      if strStartsWith target h then
        some { b with nonce := (i : Int), hash := h }
      else mineLoop H target b (i + 1) fuel

/-- `max_nonce = 2**32`. -/
def MAX_NONCE : Nat := 2 ^ 32

/-- `Block.mine_block`: search nonces `0, 1, …, 2^32 - 1` for a hash with
`difficulty` leading zero characters; `none` models the `RuntimeError`
raised when the space is exhausted. -/
def Block.mine_block (H : HashFn) (difficulty : Nat) (b : Block) :
    Option Block :=
  mineLoop H (zeros difficulty) b 0 MAX_NONCE

/-- `Block.is_valid`: recomputed hash equals the stored hash, the stored
hash meets the difficulty target, and all transactions verify. -/
def Block.is_valid (H : HashFn) (rsaOk : Transaction → Bool)
    (difficulty : Nat) (b : Block) : Bool :=
  if b.calculate_hash H ≠ b.hash then false
  else if ¬ strStartsWith (zeros difficulty) b.hash then false
  else b.transactions.all (Transaction.verify rsaOk)

/-- Serialized block dictionary; each field is `none` when the key is
absent. -/
structure BlockDict where
  index : Option Int
  timestamp : Option ℚ
  previous_hash : Option String
  hash : Option String
  nonce : Option Int
  transactions : Option (List TxData)
  deriving DecidableEq, Repr

/-- `Block.to_dict`. -/
def Block.toDict (b : Block) : BlockDict :=
  { index := some b.index, timestamp := some b.timestamp,
    previous_hash := some b.previous_hash, hash := some b.hash,
    nonce := some b.nonce,
    transactions := some (b.transactions.map Transaction.toData) }

/-- `Block.from_dict`: requires all six keys, parses each transaction entry
and SKIPS entries whose parse raises (`except ValueError` with a warning),
then calls the constructor (whose own `ValueError` is not caught). -/
def Block.from_dict (H : HashFn) (now : ℚ) (d : BlockDict) :
    Except String Block :=
  match d.index, d.timestamp, d.previous_hash, d.hash, d.nonce,
      d.transactions with
  | some i, some ts, some ph, some h, some n, some txds =>
      let txs := txds.filterMap fun td => (Transaction.from_dict now td).toOption
      Block.init H now i txs ph (some ts) n (some h)
  | _, _, _, _, _, _ => .error "Missing required field"

/-- `TransactionPool` (`transaction_pool.py`); `max_size` comes from
`MAX_TRANSACTION_POOL_SIZE` in the configuration. -/
structure TransactionPool where
  transactions : List Transaction
  max_size : Nat
  deriving DecidableEq, Repr, Inhabited

/-- `TransactionPool.add_transaction` on a `Transaction` object: rejects on
a full pool, a failed `verify`, or an existing entry with the same
(sender, recipient, amount, timestamp); otherwise appends. Returns the
updated pool and the boolean result. -/
def TransactionPool.add_transaction (rsaOk : Transaction → Bool)
    (pool : TransactionPool) (t : Transaction) : TransactionPool × Bool :=
  if pool.max_size ≤ pool.transactions.length then (pool, false)
  else if ¬ t.verify rsaOk then (pool, false)
  else if pool.transactions.any (fun tx =>
      tx.sender = t.sender ∧ tx.recipient = t.recipient ∧
      tx.amount = t.amount ∧ tx.timestamp = t.timestamp) then (pool, false)
  else ({ pool with transactions := pool.transactions ++ [t] }, true)

/-- The set comprehension `{tx.signature for tx in transactions if tx.signature}`:
the truthy signatures of a transaction list. -/
def truthySigs (txs : List Transaction) : List String :=
  txs.filterMap fun t =>
    match t.signature with
    | some s => if s = "" then none else some s
    | none => none

/-- `TransactionPool.remove_transactions`: keep a pooled transaction unless
its signature is among the truthy signatures of the removed list (`None`
is never a member of that set). -/
def remove_transactions (pool : List Transaction)
    (included : List Transaction) : List Transaction :=
  let sigs := truthySigs included
  pool.filter fun tx =>
    match tx.signature with
    | some s => decide (s ∉ sigs)
    | none => true

/-- `Blockchain` state (`blockchain.py`). -/
structure Blockchain where
  difficulty : Nat
  mining_reward : ℚ
  block_time : ℚ
  difficulty_adjustment_interval : Nat
  transaction_pool : TransactionPool
  chain : List Block
  deriving DecidableEq, Repr, Inhabited

/-- The genesis `Block(...)` object of `_create_genesis_block` before
mining: index 0, fixed timestamp 1234567890, no transactions,
previous hash of 64 zero characters, nonce 0, hash computed. -/
def genesisTemplate (H : HashFn) : Block :=
  { index := 0, transactions := [], previous_hash := zeros 64,
    timestamp := 1234567890, nonce := 0,
    hash := H (blockData 0 1234567890 (zeros 64) 0 []) }

/-- `Blockchain._create_genesis_block` on an empty chain: construct the
fixed genesis block and mine it at the given difficulty. `none` models the
mining-exhausted `RuntimeError`. `now` is the wall-clock value that
`Block.__init__` would use as a default; the genesis constructor passes an
explicit fixed timestamp. -/
def create_genesis_block (H : HashFn) (now : ℚ) (difficulty : Nat) :
    Option Block :=
  match Block.init H now 0 [] (zeros 64) (some 1234567890) 0 none with
  | .error _ => none
  | .ok g => Block.mine_block H difficulty g

/-- `Blockchain.__init__`: sets the difficulty, the mining reward, the
block-time and adjustment-interval constants, an empty pool, and creates
the genesis block. `reward` and `poolMax` stand for the configuration
constants `MINING_REWARD` and `MAX_TRANSACTION_POOL_SIZE` (the
configuration module is external to the embedded core). -/
def Blockchain.init (H : HashFn) (now : ℚ) (difficulty : Nat) (reward : ℚ)
    (poolMax : Nat) : Option Blockchain :=
  (create_genesis_block H now difficulty).map fun g =>
    { difficulty := difficulty, mining_reward := reward, block_time := 10,
      difficulty_adjustment_interval := 10,
      transaction_pool := { transactions := [], max_size := poolMax },
      chain := [g] }

/-- `Blockchain.get_latest_block` (`self.chain[-1]`); `none` models the
`IndexError` on an empty chain. -/
def Blockchain.get_latest_block (bc : Blockchain) : Option Block :=
  bc.chain.getLast?

/-- `Blockchain.adjust_difficulty`: act only when the chain length is a
multiple of the adjustment interval and exceeds it; compare the elapsed
time over the last interval with the expected time; +1 when too fast,
−1 (floored at 1) when too slow. -/
def Blockchain.adjust_difficulty (bc : Blockchain) : Blockchain :=
  if bc.chain.length % bc.difficulty_adjustment_interval ≠ 0 then bc
  else if bc.chain.length ≤ bc.difficulty_adjustment_interval then bc
  else
    let prev := bc.chain.getD
      (bc.chain.length - bc.difficulty_adjustment_interval) default
    let tip := bc.chain.getLast?.getD default
    let time_expected : ℚ :=
      bc.block_time * (bc.difficulty_adjustment_interval : ℚ)
    let time_taken : ℚ := tip.timestamp - prev.timestamp
    if time_taken < time_expected / 2 then
      { bc with difficulty := bc.difficulty + 1 }
    else if time_expected * 2 < time_taken then
      if 1 < bc.difficulty then { bc with difficulty := bc.difficulty - 1 }
      else bc
    else bc

/-- `Blockchain._is_valid_block`: index must equal the chain length,
previous hash must equal the tip hash, and the block's own validation must
pass. `none` models the `IndexError` of `get_latest_block` on an empty
chain (reached only when the index check already passed). -/
def Blockchain.is_valid_block (H : HashFn) (rsaOk : Transaction → Bool)
    (bc : Blockchain) (b : Block) : Option Bool :=
  if b.index ≠ (bc.chain.length : Int) then some false
  else match bc.chain.getLast? with
    | none => none
    | some tip =>
        if b.previous_hash ≠ tip.hash then some false
        else some (b.is_valid H rsaOk bc.difficulty)

/-- `Blockchain.add_block`: reject a hash already in the chain, then
validate; on success append the block, prune the pool by signature, and
retarget the difficulty. Returns the updated state and the boolean
result; `none` models an uncaught `IndexError`. -/
def Blockchain.add_block (H : HashFn) (rsaOk : Transaction → Bool)
    (bc : Blockchain) (b : Block) : Option (Blockchain × Bool) :=
  if bc.chain.any (fun eb => eb.hash = b.hash) then some (bc, false)
  else match bc.is_valid_block H rsaOk b with
    | none => none
    | some false => some (bc, false)
    | some true =>
        let pool1 : TransactionPool :=
          { bc.transaction_pool with
            transactions :=
              remove_transactions bc.transaction_pool.transactions
                b.transactions }
        let bc1 : Blockchain :=
          { bc with
            chain := bc.chain ++ [b]
            transaction_pool := pool1 }
        some (bc1.adjust_difficulty, true)

/-- The duplicate-detection loop of `replace_chain`: walk the block list
with the set of hashes seen so far, reporting `true` on the first repeat. -/
def hasDuplicateHash : List String → List Block → Bool
  | _, [] => false
  | seen, b :: bs =>
      if b.hash ∈ seen then true else hasDuplicateHash (b.hash :: seen) bs

/-- The `for i in range(1, len(chain))` loop of `_is_valid_chain`:
each block at position `i` must have index `i`, link to the previous
block's hash, and pass its own validation. -/
def validLinks (H : HashFn) (rsaOk : Transaction → Bool) (d : Nat) :
    Block → Nat → List Block → Bool
  | _, _, [] => true
  | prev, i, cur :: rest =>
      if cur.index ≠ (i : Int) then false
      else if cur.previous_hash ≠ prev.hash then false
      else if ¬ cur.is_valid H rsaOk d then false
      else validLinks H rsaOk d cur (i + 1) rest

/-- `Blockchain._is_valid_chain`: genesis shape (index 0, previous hash of
64 zeros), then the sequential per-block checks. The `[]` case models the
`IndexError` on `chain[0]` as `false`; every caller in the source rejects
empty input before reaching this function. -/
def is_valid_chain (H : HashFn) (rsaOk : Transaction → Bool) (d : Nat) :
    List Block → Bool
  | [] => false
  | g :: rest =>
      if g.index ≠ 0 then false
      else if g.previous_hash ≠ zeros 64 then false
      else validLinks H rsaOk d g 1 rest

/-- The list comprehension `[Block.from_dict(bd) for bd in new_chain]`:
the first raising entry aborts the whole conversion. -/
def blocksFromDicts (H : HashFn) (now : ℚ) :
    List BlockDict → Except String (List Block)
  | [] => .ok []
  | d :: ds =>
      match Block.from_dict H now d with
      | .error e => .error e
      | .ok b =>
          match blocksFromDicts H now ds with
          | .error e => .error e
          | .ok bs => .ok (b :: bs)

/-- `Blockchain.replace_chain`: reject empty input, failed deserialization,
an internal duplicate hash, a failed full-chain validation (at the current
difficulty), or a candidate not strictly longer; otherwise install the
candidate as the new chain. -/
def Blockchain.replace_chain (H : HashFn) (rsaOk : Transaction → Bool)
    (now : ℚ) (bc : Blockchain) (new_chain : List BlockDict) :
    Blockchain × Bool :=
  if new_chain.length = 0 then (bc, false)
  else match blocksFromDicts H now new_chain with
    | .error _ => (bc, false)
    | .ok new_blocks =>
        if hasDuplicateHash [] new_blocks then (bc, false)
        else if ¬ is_valid_chain H rsaOk bc.difficulty new_blocks then
          (bc, false)
        else if new_blocks.length ≤ bc.chain.length then (bc, false)
        else ({ bc with chain := new_blocks }, true)

/-- `Blockchain.mine_pending_transactions`: skip when the pool is empty and
the miner is not `"system"`; otherwise build the reward transaction (for a
non-system miner), prepend it to the pool snapshot, build and mine a block
on the tip, call `add_block`, and on success CLEAR the whole pool.
`Except.error` models the uncaught exceptions of this path (reward or
block constructor `ValueError`, tip `IndexError`, mining `RuntimeError`).
Returns the updated state and `some block` exactly when the source returns
the new block. -/
def Blockchain.mine_pending_transactions (H : HashFn)
    (rsaOk : Transaction → Bool) (now : ℚ) (bc : Blockchain)
    (miner : String) : Except String (Blockchain × Option Block) :=
  if bc.transaction_pool.transactions = [] ∧ miner ≠ "system" then
    .ok (bc, none)
  else
    let txsE : Except String (List Transaction) :=
      if miner ≠ "system" then
        (Transaction.init "system" miner bc.mining_reward none none now).map
          fun r => r :: bc.transaction_pool.transactions
      else .ok bc.transaction_pool.transactions
    match txsE with
    | .error e => .error e
    | .ok txs =>
        match bc.chain.getLast? with
        | none => .error "IndexError: chain is empty"
        | some tip =>
            match Block.init H now (bc.chain.length : Int) txs tip.hash
                none 0 none with
            | .error e => .error e
            | .ok newBlock =>
                match Block.mine_block H bc.difficulty newBlock with
                | none => .error "Failed to mine block"
                | some mined =>
                    match bc.add_block H rsaOk mined with
                    | none => .error "IndexError: chain is empty"
                    | some (bc1, true) =>
                        .ok ({ bc1 with transaction_pool :=
                            { bc1.transaction_pool with
                              transactions := [] } }, some mined)
                    | some (bc1, false) => .ok (bc1, none)

/-- `DHTNode` state relevant to broadcasting: the node's own id and the
routing table (`node_id → (host, port)`, insertion-ordered as in a Python
dict). -/
structure DHTNode where
  selfId : String
  routing_table : List (String × String × Nat)
  deriving DecidableEq, Repr

/-- Abstract network behaviour for `_send_message_with_response`: for an
address, `none` means no response surfaced (timeout, connection refused,
empty data, undecodable or non-dict payload — all caught inside the
helper, which then returns `None` instead of raising), and
`some typ?` means a response whose `'type'` field is `typ?`. -/
def Net : Type := String × Nat → Option (Option String)

/-- The peer loop of `DHTNode.broadcast_block`: for each routing-table
entry other than self, send the message and count `ack` responses. The
helper `_send_message_with_response` catches every exception internally
and returns `None`, so the `except` branch of the loop (the only place
that removes a peer) is unreachable and the routing table is left
untouched. -/
def broadcastLoop (net : Net) (selfId : String) :
    List (String × String × Nat) → Nat → Nat
  | [], acc => acc
  | (nid, host, port) :: rest, acc =>
      if nid ≠ selfId then
        match net (host, port) with
        | some (some t) =>
            broadcastLoop net selfId rest (if t = "ack" then acc + 1 else acc)
        | some none => broadcastLoop net selfId rest acc
        | none => broadcastLoop net selfId rest acc
      else broadcastLoop net selfId rest acc

/-- `DHTNode.broadcast_block`: returns the node state after the broadcast
and the count of peers that acknowledged. -/
def DHTNode.broadcast_block (net : Net) (node : DHTNode) : DHTNode × Nat :=
  (node, broadcastLoop net node.selfId node.routing_table 0)

/-- `true` exactly on `Except.ok` (Python: no exception raised). -/
def exceptOk {ε α : Type} : Except ε α → Bool
  | .ok _ => true
  | .error _ => false

/-- A hexadecimal character, as in the spec's "64 hex characters". -/
def isHexChar (c : Char) : Bool :=
  ('0' ≤ c ∧ c ≤ '9') ∨ ('a' ≤ c ∧ c ≤ 'f') ∨ ('A' ≤ c ∧ c ≤ 'F')

/-- Concrete instantiation of the abstract SHA-256 hash for evaluating
statements at concrete inputs: a 64-character string of leading zeros
followed by a tag built from the block index and nonce (distinct for the
small indices and nonces used in concrete chains, like distinct SHA-256
digests). -/
def hashModel : HashFn := fun bd =>
  let tag := "1" ++ toString bd.index.natAbs ++ "9" ++ toString bd.nonce.natAbs
  String.mk (List.replicate (64 - tag.length) '0') ++ tag

/-- Concrete instantiation of the abstract RSA check that accepts every
signature (for evaluating statements at concrete inputs). -/
def rsaAll : Transaction → Bool := fun _ => true

/-- Concrete instantiation of the abstract hash that never produces a
leading zero (for evaluating the mining-exhausted branch). -/
def hashNeverZero : HashFn := fun _ => "X"

/-- Concrete instantiation of the abstract per-transaction SHA-256 identity
hash, distinguishing serialized transactions by their signature field. -/
def shaModel : TxData → String := fun td =>
  match td.signature with
  | some s => "S" ++ s
  | none => "N"

/-- A concrete blockchain state: difficulty 1, the mined genesis block
under `hashModel`, empty pool. -/
def bcW : Blockchain :=
  { difficulty := 1, mining_reward := 5, block_time := 10,
    difficulty_adjustment_interval := 10,
    transaction_pool := { transactions := [], max_size := 100 },
    chain := [genesisTemplate hashModel] }

/-- A concrete successor block for `bcW`'s chain under `hashModel`. -/
def bW : Block :=
  { index := 1, transactions := [],
    previous_hash := (genesisTemplate hashModel).hash, timestamp := 3,
    nonce := 0,
    hash := hashModel (blockData 1 3 (genesisTemplate hashModel).hash 0 []) }

/-- A concrete unsigned system-sender transaction sitting in the pool. -/
def sysTx : Transaction :=
  { sender := "system", recipient := "r", amount := 1, timestamp := 5,
    signature := none }

/-- A concrete blockchain state whose pool holds the unsigned `sysTx`
(difficulty 0 so that mining succeeds at nonce 0). -/
def bc5 : Blockchain :=
  { difficulty := 0, mining_reward := 5, block_time := 10,
    difficulty_adjustment_interval := 10,
    transaction_pool := { transactions := [sysTx], max_size := 100 },
    chain := [genesisTemplate hashModel] }

/-- The reward transaction `mine_pending_transactions` builds on `bc5` for
miner `"miner"` at time 7. -/
def rewardTx5 : Transaction :=
  { sender := "system", recipient := "miner", amount := 5, timestamp := 7,
    signature := none }

/-- The block mined from `bc5`'s pool. -/
def mined5 : Block :=
  { index := 1, transactions := [rewardTx5, sysTx],
    previous_hash := (genesisTemplate hashModel).hash, timestamp := 7,
    nonce := 0,
    hash := hashModel
      (blockData 1 7 (genesisTemplate hashModel).hash 0 [rewardTx5, sysTx]) }

/-- The state after `bc5.mine_pending_transactions` succeeds. -/
def bc5r : Blockchain :=
  { bc5 with
    transaction_pool := { transactions := [], max_size := 100 }
    chain := [genesisTemplate hashModel, mined5] }

/-- A concrete signed transaction (signature `"aa"`). -/
def txA : Transaction :=
  { sender := "a", recipient := "b", amount := 1, timestamp := 1,
    signature := some "aa" }

/-- The same (sender, recipient, amount, timestamp) as `txA` but a
different signature. -/
def txB : Transaction :=
  { sender := "a", recipient := "b", amount := 1, timestamp := 1,
    signature := some "bb" }

/-- A concrete transaction carrying an empty-string signature. -/
def txE : Transaction :=
  { sender := "a", recipient := "b", amount := 1, timestamp := 1,
    signature := some "" }

/-- A concrete block containing `txE`. -/
def bE : Block :=
  { index := 0, transactions := [txE], previous_hash := zeros 64,
    timestamp := 1, nonce := 0,
    hash := hashModel (blockData 0 1 (zeros 64) 0 [txE]) }

/-- A concrete serialized candidate chain of length 2 extending `bcW`'s
one-block chain. -/
def candW : List BlockDict :=
  [(genesisTemplate hashModel).toDict, bW.toDict]

/-- The state after `bcW` adopts `candW`. -/
def bcWreplaced : Blockchain :=
  { bcW with chain := [genesisTemplate hashModel, bW] }

/-- A transaction dictionary with every key absent: its deserialization
raises and the entry is skipped by `Block.from_dict`. -/
def badTxData : TxData :=
  { sender := none, fromKey := none, recipient := none, toKey := none,
    amount := none, timestamp := none, signature := none }

/-- A concrete three-peer routing state. -/
def nodeW : DHTNode :=
  { selfId := "self",
    routing_table := [("p1", "h1", 1), ("p2", "h2", 2), ("p3", "h3", 3)] }

/-- A concrete network: the peer at `("h2", 2)` is unreachable (the send
helper yields no response); everyone else acknowledges. -/
def netW : Net := fun a =>
  if a = ("h2", 2) then none else some (some "ack")

end ShieldCoin

deriving instance DecidableEq for Except

namespace ShieldCoin

/-! ## Theorems -/

/-- C7 (counterexample): a 64-character `previous_hash` whose characters
are all `'z'` — not hexadecimal — is ACCEPTED by the `Block` constructor,
contradicting the claim that such a string is rejected. -/
theorem block_init_hex_cex :
    exceptOk (Block.init hashModel 0 0 []
        (String.mk (List.replicate 64 'z')) (some 1) 0 none) = true ∧
    (String.mk (List.replicate 64 'z')).length = 64 ∧
    (String.mk (List.replicate 64 'z')).data.all isHexChar = false := by
  decide

/-- C7 (amended): `Block.__init__` raises a validation error exactly when
the index is negative or `previous_hash` does not have length 64; the
characters of `previous_hash` are never inspected. -/
theorem block_init_validation (H : HashFn) (now : ℚ) (index : Int)
    (txs : List Transaction) (prev : String) (ts : Option ℚ) (nonce : Int)
    (hash? : Option String) :
    exceptOk (Block.init H now index txs prev ts nonce hash?) = false ↔
      (index < 0 ∨ prev.length ≠ 64) := by
  simp only [Block.init]
  by_cases hi : index < 0
  · simp [hi, exceptOk]
  · by_cases hp : prev.length = 64 <;> simp [hi, hp, exceptOk]

/-- C8: blockchain construction is deterministic in the wall-clock input:
two constructions with the same initial difficulty (and the same abstract
hash function and configuration constants) agree completely, and in
particular on the list of block hashes — the genesis block has a fixed
timestamp, an all-zero previous hash, an empty transaction list, and is
mined by the deterministic nonce search. -/
theorem genesis_deterministic (H : HashFn) (d : Nat) (reward : ℚ)
    (poolMax : Nat) (now₁ now₂ : ℚ) :
    Blockchain.init H now₁ d reward poolMax =
      Blockchain.init H now₂ d reward poolMax ∧
    ((Blockchain.init H now₁ d reward poolMax).map
        fun bc => bc.chain.map Block.hash) =
      ((Blockchain.init H now₂ d reward poolMax).map
        fun bc => bc.chain.map Block.hash) := by
  have key : ∀ now : ℚ, Blockchain.init H now d reward poolMax =
      Blockchain.init H 0 d reward poolMax := by
    intro now
    simp only [Blockchain.init, create_genesis_block, Block.init, tsOr]
    norm_num
  refine ⟨?_, ?_⟩ <;> rw [key now₁, key now₂]

/-- The broadcast peer loop counts exactly the non-self peers whose send
produced a response of type `ack`. -/
theorem broadcastLoop_count (net : Net) (sid : String) :
    ∀ (l : List (String × String × Nat)) (acc : Nat),
      broadcastLoop net sid l acc = acc +
        (l.filter fun e =>
          decide (e.1 ≠ sid) && decide (net e.2 = some (some "ack"))).length := by
  intro l
  induction l with
  | nil => intro acc; simp [broadcastLoop]
  | cons e rest ih =>
      obtain ⟨nid, host, port⟩ := e
      intro acc
      by_cases hn : nid = sid
      · subst hn
        simp [broadcastLoop, ih]
      · cases hnet : net (host, port) with
        | none => simp [broadcastLoop, hn, hnet, ih]
        | some t? =>
            cases t? with
            | none => simp [broadcastLoop, hn, hnet, ih]
            | some t =>
                by_cases ht : t = "ack"
                · subst ht
                  simp [broadcastLoop, hn, hnet, ih]
                  omega
                · simp [broadcastLoop, hn, hnet, ht, ih]

/-- C4 (amended): `broadcast_block` returns the count of peers (other than
self) that acknowledged, and the routing table is unchanged: the send
helper catches every network error internally and returns no-response
instead of raising, so the eviction branch of the loop never runs. -/
theorem broadcast_block_spec (net : Net) (node : DHTNode) :
    (node.broadcast_block net).1 = node ∧
    (node.broadcast_block net).2 =
      (node.routing_table.filter fun e =>
        decide (e.1 ≠ node.selfId) &&
        decide (net e.2 = some (some "ack"))).length :=
  ⟨rfl, by simpa using broadcastLoop_count net node.selfId node.routing_table 0⟩

/-- C4 (counterexample): broadcasting to three peers with one unreachable
returns a reached-count of 2 — but the unreachable peer `p2` is still in
the routing table afterwards, contradicting the claimed eviction. -/
theorem broadcast_block_no_eviction_cex :
    (nodeW.broadcast_block netW).2 = 2 ∧
    netW ("h2", 2) = none ∧
    ("p2", "h2", 2) ∈ (nodeW.broadcast_block netW).1.routing_table := by
  decide

/-- C5 (amended): after every successful `mine_pending_transactions` call
the pool is EMPTY: `add_block` prunes by signature, but the mining path
then calls `clear_transactions`, so entries whose signature matches no
transaction in the block — including unsigned entries — are removed as
well. -/
theorem mine_pending_clears_pool (H : HashFn) (rsaOk : Transaction → Bool)
    (now : ℚ) (bc : Blockchain) (miner : String) (bc' : Blockchain)
    (blk : Block)
    (h : bc.mine_pending_transactions H rsaOk now miner =
      .ok (bc', some blk)) :
    bc'.transaction_pool.transactions = [] := by
  unfold Blockchain.mine_pending_transactions at h
  repeat split at h <;> try simp_all
  · exact congrArg (fun s => s.transaction_pool.transactions) h.1.symm

/-- C5 (witness): a concrete successful mining run from a pool containing
only the unsigned `sysTx` ends with an empty pool. -/
theorem mine_pending_clears_pool_witness :
    bc5.mine_pending_transactions hashModel rsaAll 7 "miner" =
      .ok (bc5r, some mined5) ∧
    bc5r.transaction_pool.transactions = [] :=
  ⟨by decide,
   mine_pending_clears_pool hashModel rsaAll 7 bc5 "miner" bc5r mined5
     (by decide)⟩

/-- C5 (counterexample): the pool holds the unsigned system-sender
transaction `sysTx`; mining succeeds, and `sysTx` does NOT remain in the
pool afterwards (the pool is cleared), contradicting the claim that
entries whose signature matches no signed transaction remain. -/
theorem mine_pending_clears_pool_cex :
    bc5.transaction_pool.transactions = [sysTx] ∧
    sysTx.signature = none ∧
    bc5.mine_pending_transactions hashModel rsaAll 7 "miner" =
      .ok (bc5r, some mined5) ∧
    bc5r.transaction_pool.transactions = [] := by
  decide

/-- C6 (counterexample): `txA` and `txB` agree on (sender, recipient,
amount, timestamp) but carry different signatures, so their serialized
forms — and hence their identity hashes — differ; yet `add_transaction`
rejects `txB` as a duplicate of `txA`, contradicting the claimed
identity-hash deduplication rule. -/
theorem add_transaction_dedup_cex :
    (TransactionPool.add_transaction rsaAll
      { transactions := [txA], max_size := 10 } txB).2 = false ∧
    txA.signature ≠ txB.signature ∧
    txA.toData ≠ txB.toData ∧
    Transaction.get_hash shaModel txA ≠ Transaction.get_hash shaModel txB := by
  decide

/-- C6 (amended): for a pool below capacity and a verifying candidate,
`add_transaction` rejects the candidate exactly when some existing entry
agrees with it on (sender, recipient, amount, timestamp) — the signature
is not consulted; an accepted candidate is appended. -/
theorem add_transaction_dedup (rsaOk : Transaction → Bool)
    (pool : TransactionPool) (t : Transaction)
    (hcap : pool.transactions.length < pool.max_size)
    (hver : t.verify rsaOk = true) :
    (((pool.add_transaction rsaOk t).2 = false) ↔
      ∃ tx ∈ pool.transactions, tx.sender = t.sender ∧
        tx.recipient = t.recipient ∧ tx.amount = t.amount ∧
        tx.timestamp = t.timestamp) ∧
    ((pool.add_transaction rsaOk t).2 = true →
      (pool.add_transaction rsaOk t).1.transactions =
        pool.transactions ++ [t]) := by
  unfold TransactionPool.add_transaction
  rw [if_neg (by omega)]
  rw [if_neg (by simp [hver])]
  by_cases hdup : pool.transactions.any fun tx =>
      tx.sender = t.sender ∧ tx.recipient = t.recipient ∧
      tx.amount = t.amount ∧ tx.timestamp = t.timestamp
  · rw [if_pos hdup]
    simp only [List.any_eq_true, decide_eq_true_eq] at hdup
    simp [hdup]
  · rw [if_neg hdup]
    simp only [List.any_eq_true, decide_eq_true_eq] at hdup
    push_neg at hdup
    constructor
    · simp only [Bool.true_eq_false, false_iff]
      rintro ⟨tx, htx, h1, h2, h3, h4⟩
      exact (hdup tx htx h1 h2 h3) h4
    · intro; rfl

/-- C6 (witness): a concrete rejected duplicate under the amended rule. -/
theorem add_transaction_dedup_witness :
    (((TransactionPool.add_transaction rsaAll
        { transactions := [txA], max_size := 10 } txB).2 = false) ↔
      ∃ tx ∈ ({ transactions := [txA], max_size := 10 } :
          TransactionPool).transactions, tx.sender = txB.sender ∧
        tx.recipient = txB.recipient ∧ tx.amount = txB.amount ∧
        tx.timestamp = txB.timestamp) ∧
    ((TransactionPool.add_transaction rsaAll
        { transactions := [txA], max_size := 10 } txB).2 = true →
      (TransactionPool.add_transaction rsaAll
        { transactions := [txA], max_size := 10 } txB).1.transactions =
        ({ transactions := [txA], max_size := 10 } :
          TransactionPool).transactions ++ [txB]) :=
  add_transaction_dedup rsaAll { transactions := [txA], max_size := 10 } txB
    (by decide) (by decide)

/-- If the mining loop returns a block, its nonce is the first one (from
the start index, counting upward) whose hash meets the target, and the
stored hash is the hash computed at that nonce. -/
theorem mineLoop_found (H : HashFn) (target : String) (b : Block) :
    ∀ (fuel i : Nat) (b' : Block), mineLoop H target b i fuel = some b' →
      ∃ k : Nat, k < fuel ∧
        b' = { b with
               nonce := ((i + k : Nat) : Int)
               hash := hashAtNonce H b (i + k) } ∧
        strStartsWith target (hashAtNonce H b (i + k)) = true ∧
        ∀ m : Nat, m < k →
          strStartsWith target (hashAtNonce H b (i + m)) = false := by
  intro fuel
  induction fuel with
  | zero => intro i b' h; simp [mineLoop] at h
  | succ f ih =>
      intro i b' h
      simp only [mineLoop] at h
      by_cases hs : strStartsWith target (hashAtNonce H b i) = true
      · rw [if_pos hs] at h
        refine ⟨0, Nat.succ_pos f, ?_, ?_, ?_⟩
        · rw [Nat.add_zero]; exact (Option.some.inj h).symm
        · rw [Nat.add_zero]; exact hs
        · intro m hm; omega
      · rw [if_neg hs] at h
        obtain ⟨k, hk, hb, hsw, hmin⟩ := ih (i + 1) b' h
        refine ⟨k + 1, by omega, ?_, ?_, ?_⟩
        · rw [show i + (k + 1) = i + 1 + k by omega]; exact hb
        · rw [show i + (k + 1) = i + 1 + k by omega]; exact hsw
        · intro m hm
          cases m with
          | zero =>
              rw [Nat.add_zero]
              simp only [Bool.not_eq_true] at hs
              exact hs
          | succ m' =>
              rw [show i + (m' + 1) = i + 1 + m' by omega]
              exact hmin m' (by omega)

/-- If no nonce in the remaining fuel meets the target, the mining loop
fails. -/
theorem mineLoop_exhaust (H : HashFn) (target : String) (b : Block) :
    ∀ (fuel i : Nat),
      (∀ k : Nat, k < fuel →
        strStartsWith target (hashAtNonce H b (i + k)) = false) →
      mineLoop H target b i fuel = none := by
  intro fuel
  induction fuel with
  | zero => intro i _; simp [mineLoop]
  | succ f ih =>
      intro i hall
      simp only [mineLoop]
      have h0 := hall 0 (Nat.succ_pos f)
      rw [Nat.add_zero] at h0
      rw [if_neg (by simp [h0])]
      refine ih (i + 1) fun k hk => ?_
      have := hall (k + 1) (by omega)
      rw [show i + (k + 1) = i + 1 + k by omega] at this
      exact this

/-- C3: when `mine_block(d)` returns a block, the stored hash equals the
hash recomputed from the block's fields, that hash starts with `d` zero
characters, the other fields are untouched, and the nonce is the least
one in `[0, 2^32)` that works (upward iteration from 0); when no nonce in
the bounded search space works, the call fails with the mining-exhausted
error (`none`) instead of returning a block. -/
theorem mine_block_spec (H : HashFn) (d : Nat) (b : Block) :
    (∀ b' : Block, Block.mine_block H d b = some b' →
      b'.hash = b'.calculate_hash H ∧
      strStartsWith (zeros d) b'.hash = true ∧
      b'.index = b.index ∧ b'.timestamp = b.timestamp ∧
      b'.previous_hash = b.previous_hash ∧
      b'.transactions = b.transactions ∧
      ∃ n : Nat, n < MAX_NONCE ∧ b'.nonce = (n : Int) ∧
        b'.hash = hashAtNonce H b n ∧
        ∀ m : Nat, m < n →
          strStartsWith (zeros d) (hashAtNonce H b m) = false) ∧
    ((∀ n : Nat, n < MAX_NONCE →
        strStartsWith (zeros d) (hashAtNonce H b n) = false) →
      Block.mine_block H d b = none) := by
  constructor
  · intro b' h
    obtain ⟨k, hk, hb, hsw, hmin⟩ :=
      mineLoop_found H (zeros d) b MAX_NONCE 0 b' h
    simp only [Nat.zero_add] at hb hsw hmin
    subst hb
    exact ⟨rfl, hsw, rfl, rfl, rfl, rfl, k, hk, rfl, rfl, hmin⟩
  · intro hall
    exact mineLoop_exhaust H (zeros d) b MAX_NONCE 0
      fun k hk => by simpa using hall k hk

/-- C3 (witness): under `hashModel` at difficulty 1 mining returns the
genesis template with a matching, zero-prefixed hash; under a hash
function that never produces a leading zero, mining fails. -/
theorem mine_block_spec_witness :
    Block.mine_block hashModel 1 (genesisTemplate hashModel) =
      some (genesisTemplate hashModel) ∧
    (genesisTemplate hashModel).hash =
      (genesisTemplate hashModel).calculate_hash hashModel ∧
    strStartsWith (zeros 1) (genesisTemplate hashModel).hash = true ∧
    Block.mine_block hashNeverZero 1 (genesisTemplate hashModel) = none :=
  ⟨by decide,
   ((mine_block_spec hashModel 1 (genesisTemplate hashModel)).1
     (genesisTemplate hashModel) (by decide)).1,
   ((mine_block_spec hashModel 1 (genesisTemplate hashModel)).1
     (genesisTemplate hashModel) (by decide)).2.1,
   (mine_block_spec hashNeverZero 1 (genesisTemplate hashModel)).2
     fun n _ => rfl⟩

/-- `adjust_difficulty` mutates at most the difficulty field. -/
theorem adjust_difficulty_frame (bc : Blockchain) :
    bc.adjust_difficulty.chain = bc.chain ∧
    bc.adjust_difficulty.transaction_pool = bc.transaction_pool ∧
    bc.adjust_difficulty.mining_reward = bc.mining_reward ∧
    bc.adjust_difficulty.block_time = bc.block_time ∧
    bc.adjust_difficulty.difficulty_adjustment_interval =
      bc.difficulty_adjustment_interval := by
  unfold Blockchain.adjust_difficulty
  dsimp only
  split_ifs <;> simp

/-- `_is_valid_block` on a chain with tip `tip` checks the index, the
previous-hash link, and the block's own validity, in that order. -/
theorem is_valid_block_eq (H : HashFn) (rsaOk : Transaction → Bool)
    (bc : Blockchain) (b tip : Block)
    (htip : bc.chain.getLast? = some tip) :
    bc.is_valid_block H rsaOk b =
      some (if b.index = (bc.chain.length : Int) ∧ b.previous_hash = tip.hash
            then b.is_valid H rsaOk bc.difficulty else false) := by
  unfold Blockchain.is_valid_block
  rw [htip]
  by_cases h1 : b.index = (bc.chain.length : Int)
  · by_cases h2 : b.previous_hash = tip.hash <;> simp [h1, h2]
  · simp [h1]

/-- C2: on a non-empty chain with tip `tip`, `add_block` returns `true` and
appends `b` as the new tip exactly when `b`'s hash is not already in the
chain, `b.index` equals the chain length, `b.previous_hash` equals the tip
hash, and `b` passes proof-of-work/transaction validation at the current
difficulty; in every other case it returns `false` and the whole state is
unchanged. -/
theorem add_block_spec (H : HashFn) (rsaOk : Transaction → Bool)
    (bc : Blockchain) (b tip : Block)
    (htip : bc.chain.getLast? = some tip) :
    ∃ bc' res, bc.add_block H rsaOk b = some (bc', res) ∧
      (res = true ↔ (bc.chain.any (fun eb => eb.hash = b.hash) = false ∧
        b.index = (bc.chain.length : Int) ∧ b.previous_hash = tip.hash ∧
        b.is_valid H rsaOk bc.difficulty = true)) ∧
      (res = false → bc' = bc) ∧
      (res = true → bc'.chain = bc.chain ++ [b]) := by
  unfold Blockchain.add_block
  rw [is_valid_block_eq H rsaOk bc b tip htip]
  by_cases hdup : bc.chain.any (fun eb => eb.hash = b.hash) = true
  · rw [if_pos hdup]
    exact ⟨bc, false, rfl, by simp [hdup], fun _ => rfl, by simp⟩
  · rw [if_neg hdup]
    rw [Bool.not_eq_true] at hdup
    by_cases hc : b.index = (bc.chain.length : Int) ∧ b.previous_hash = tip.hash
    · rw [if_pos hc]
      cases hval : b.is_valid H rsaOk bc.difficulty with
      | false =>
          exact ⟨bc, false, rfl, by simp [hval], fun _ => rfl, by simp⟩
      | true =>
          refine ⟨_, true, rfl, by simp [hdup, hc.1, hc.2], by simp, ?_⟩
          intro
          rw [(adjust_difficulty_frame _).1]
    · rw [if_neg hc]
      refine ⟨bc, false, rfl, ?_, fun _ => rfl, by simp⟩
      constructor
      · intro hh; cases hh
      · rintro ⟨_, h1, h2, _⟩; exact absurd ⟨h1, h2⟩ hc

/-- C2 (witness): a concrete valid successor block is accepted and
appended on a concrete one-block chain. -/
theorem add_block_spec_witness :
    ∃ bc' res, bcW.add_block hashModel rsaAll bW = some (bc', res) ∧
      (res = true ↔ (bcW.chain.any (fun eb => eb.hash = bW.hash) = false ∧
        bW.index = (bcW.chain.length : Int) ∧
        bW.previous_hash = (genesisTemplate hashModel).hash ∧
        bW.is_valid hashModel rsaAll bcW.difficulty = true)) ∧
      (res = false → bc' = bcW) ∧
      (res = true → bc'.chain = bcW.chain ++ [bW]) :=
  add_block_spec hashModel rsaAll bcW bW (genesisTemplate hashModel)
    (by decide)

/-- Single-equation characterization of `replace_chain`: deserialize, then
accept exactly when there is no duplicate hash, the full-chain validation
passes, and the candidate is strictly longer. (The empty-input early
return coincides with the `ok []` case, where validation fails.) -/
theorem replace_chain_eq (H : HashFn) (rsaOk : Transaction → Bool)
    (now : ℚ) (bc : Blockchain) (nc : List BlockDict) :
    bc.replace_chain H rsaOk now nc =
      match blocksFromDicts H now nc with
      | .error _ => (bc, false)
      | .ok blocks =>
          if hasDuplicateHash [] blocks = false ∧
              is_valid_chain H rsaOk bc.difficulty blocks = true ∧
              bc.chain.length < blocks.length
          then ({ bc with chain := blocks }, true)
          else (bc, false) := by
  unfold Blockchain.replace_chain
  by_cases h0 : nc.length = 0
  · rw [if_pos h0, List.length_eq_zero.mp h0]
    simp only [blocksFromDicts]
    rw [if_neg (by simp [is_valid_chain])]
  · rw [if_neg h0]
    obtain ⟨bfd, hbd⟩ : ∃ x, blocksFromDicts H now nc = x := ⟨_, rfl⟩
    rw [hbd]
    cases bfd with
    | error e => rfl
    | ok blocks =>
        dsimp only
        by_cases hdup : hasDuplicateHash [] blocks = true
        · rw [if_pos hdup, if_neg (by simp [hdup])]
        · rw [Bool.not_eq_true] at hdup
          rw [if_neg (by simp [hdup])]
          by_cases hval : is_valid_chain H rsaOk bc.difficulty blocks = true
          · rw [if_neg (not_not_intro hval)]
            by_cases hlen : blocks.length ≤ bc.chain.length
            · rw [if_pos hlen, if_neg (by rintro ⟨-, -, h3⟩; omega)]
            · rw [if_neg hlen, if_pos ⟨hdup, hval, by omega⟩]
          · rw [if_pos hval, if_neg (by rintro ⟨-, h2, -⟩; exact hval h2)]

/-- C1: `replace_chain` installs the deserialized candidate and returns
`true` exactly when the candidate deserializes, contains no duplicate
block hash, passes the full sequential chain validation (genesis shape,
per-block index, previous-hash linkage, proof-of-work and transaction
checks) at the current difficulty, and is strictly longer than the current
chain; in every other case — deserialization failure, duplicate hash,
invalid chain, or a tie or shorter candidate — it returns `false` and the
stored state is exactly what it was. -/
theorem replace_chain_spec (H : HashFn) (rsaOk : Transaction → Bool)
    (now : ℚ) (bc : Blockchain) (nc : List BlockDict) :
    (∀ blocks, blocksFromDicts H now nc = .ok blocks →
      hasDuplicateHash [] blocks = false →
      is_valid_chain H rsaOk bc.difficulty blocks = true →
      bc.chain.length < blocks.length →
      bc.replace_chain H rsaOk now nc = ({ bc with chain := blocks }, true)) ∧
    (∀ blocks, blocksFromDicts H now nc = .ok blocks →
      ¬(hasDuplicateHash [] blocks = false ∧
        is_valid_chain H rsaOk bc.difficulty blocks = true ∧
        bc.chain.length < blocks.length) →
      bc.replace_chain H rsaOk now nc = (bc, false)) ∧
    (∀ e, blocksFromDicts H now nc = .error e →
      bc.replace_chain H rsaOk now nc = (bc, false)) := by
  refine ⟨?_, ?_, ?_⟩
  · intro blocks hbl h1 h2 h3
    rw [replace_chain_eq, hbl]
    dsimp only
    rw [if_pos ⟨h1, h2, h3⟩]
  · intro blocks hbl hnot
    rw [replace_chain_eq, hbl]
    dsimp only
    rw [if_neg hnot]
  · intro e he
    rw [replace_chain_eq, he]

/-- C1 (witness): a concrete strictly-longer valid candidate is adopted
and installed; the same candidate against a two-block chain of equal
length is rejected with no mutation. -/
theorem replace_chain_spec_witness :
    blocksFromDicts hashModel 0 candW = .ok [genesisTemplate hashModel, bW] ∧
    bcW.replace_chain hashModel rsaAll 0 candW =
      ({ bcW with chain := [genesisTemplate hashModel, bW] }, true) ∧
    bcWreplaced.replace_chain hashModel rsaAll 0 candW =
      (bcWreplaced, false) :=
  ⟨by decide,
   (replace_chain_spec hashModel rsaAll 0 bcW candW).1
     [genesisTemplate hashModel, bW] (by decide) (by decide) (by decide)
     (by decide),
   (replace_chain_spec hashModel rsaAll 0 bcWreplaced candW).2.1
     [genesisTemplate hashModel, bW] (by decide)
     (by rintro ⟨-, -, h3⟩; revert h3; decide)⟩

/-- C9: `replace_chain` mutates only the chain field — difficulty, mining
reward, pool, block time and adjustment interval are untouched whether it
succeeds or fails — and a successful candidate was validated against the
node's pre-call difficulty. -/
theorem replace_chain_frame (H : HashFn) (rsaOk : Transaction → Bool)
    (now : ℚ) (bc : Blockchain) (nc : List BlockDict) :
    (bc.replace_chain H rsaOk now nc).1.difficulty = bc.difficulty ∧
    (bc.replace_chain H rsaOk now nc).1.mining_reward = bc.mining_reward ∧
    (bc.replace_chain H rsaOk now nc).1.transaction_pool =
      bc.transaction_pool ∧
    (bc.replace_chain H rsaOk now nc).1.block_time = bc.block_time ∧
    (bc.replace_chain H rsaOk now nc).1.difficulty_adjustment_interval =
      bc.difficulty_adjustment_interval ∧
    ((bc.replace_chain H rsaOk now nc).2 = true →
      ∃ blocks, blocksFromDicts H now nc = .ok blocks ∧
        is_valid_chain H rsaOk bc.difficulty blocks = true ∧
        (bc.replace_chain H rsaOk now nc).1.chain = blocks) := by
  rw [replace_chain_eq]
  obtain ⟨bfd, hbd⟩ : ∃ x, blocksFromDicts H now nc = x := ⟨_, rfl⟩
  rw [hbd]
  cases bfd with
  | error e => exact ⟨rfl, rfl, rfl, rfl, rfl, by simp⟩
  | ok blocks =>
      dsimp only
      by_cases hcond : hasDuplicateHash [] blocks = false ∧
          is_valid_chain H rsaOk bc.difficulty blocks = true ∧
          bc.chain.length < blocks.length
      · rw [if_pos hcond]
        exact ⟨rfl, rfl, rfl, rfl, rfl,
          fun _ => ⟨blocks, rfl, hcond.2.1, rfl⟩⟩
      · rw [if_neg hcond]
        exact ⟨rfl, rfl, rfl, rfl, rfl, by simp⟩

/-- C9 (witness): a concrete successful replacement leaves difficulty,
reward and pool untouched, and the candidate was checked at the pre-call
difficulty. -/
theorem replace_chain_frame_witness :
    (bcW.replace_chain hashModel rsaAll 0 candW).1.transaction_pool =
      bcW.transaction_pool ∧
    (bcW.replace_chain hashModel rsaAll 0 candW).1.difficulty =
      bcW.difficulty ∧
    (bcW.replace_chain hashModel rsaAll 0 candW).2 = true ∧
    (∃ blocks, blocksFromDicts hashModel 0 candW = .ok blocks ∧
      is_valid_chain hashModel rsaAll bcW.difficulty blocks = true ∧
      (bcW.replace_chain hashModel rsaAll 0 candW).1.chain = blocks) :=
  ⟨(replace_chain_frame hashModel rsaAll 0 bcW candW).2.2.1,
   (replace_chain_frame hashModel rsaAll 0 bcW candW).1,
   by decide,
   (replace_chain_frame hashModel rsaAll 0 bcW candW).2.2.2.2.2 (by decide)⟩

/-- `filterMap` by a function that maps every list member to itself is the
identity. -/
theorem filterMap_eq_self {α : Type} (l : List α) (f : α → Option α)
    (h : ∀ x ∈ l, f x = some x) : l.filterMap f = l := by
  induction l with
  | nil => rfl
  | cons a t ih =>
      rw [List.filterMap_cons, h a (by simp)]
      rw [ih fun x hx => h x (by simp [hx])]

/-- A transaction whose sender and recipient are non-empty, whose amount is
within bounds, whose timestamp is non-zero and whose signature is not the
empty string deserializes from its own serialized form back to itself. -/
theorem tx_roundtrip (now : ℚ) (t : Transaction) (hs : t.sender ≠ "")
    (hr : t.recipient ≠ "") (ha0 : 0 < t.amount)
    (hmin : MIN_AMOUNT ≤ t.amount) (hmax : t.amount ≤ MAX_AMOUNT)
    (hts : t.timestamp ≠ 0) (hsig : t.signature ≠ some "") :
    Transaction.from_dict now t.toData = .ok t := by
  obtain ⟨s, r, a, ts, sig⟩ := t
  simp only [Transaction.toData] at *
  have h1 : ¬ a ≤ 0 := not_le.mpr ha0
  have h2 : ¬ a < MIN_AMOUNT := not_lt.mpr hmin
  have h3 : ¬ MAX_AMOUNT < a := not_lt.mpr hmax
  cases sig with
  | none =>
      simp [Transaction.from_dict, pyOrStr, sigTruthy, Transaction.init,
        tsOr, hs, hr, h1, h2, h3, hts]
  | some sg =>
      have hsg : sg ≠ "" := fun he => hsig (by rw [he])
      simp [Transaction.from_dict, pyOrStr, sigTruthy, Transaction.init,
        tsOr, hs, hr, h1, h2, h3, hts, hsg]

/-- C10 (amended): (1) a block satisfying the constructor invariants
(non-negative index, 64-character previous hash, non-empty stored hash)
with a non-zero timestamp, whose transactions all deserialize back to
themselves (non-empty sender/recipient, in-bounds amount, non-zero
timestamp, and no EMPTY-STRING signature), round-trips through
`to_dict`/`from_dict` to an equal block; (2) when a transaction entry in
the dictionary fails to deserialize, `from_dict` does not raise but
silently omits that entry: its transaction list is the `filterMap` of the
successfully parsed entries. -/
theorem block_serialization_spec :
    (∀ (H : HashFn) (now : ℚ) (b : Block), 0 ≤ b.index →
      b.previous_hash.length = 64 → b.hash ≠ "" → b.timestamp ≠ 0 →
      (∀ t ∈ b.transactions, t.sender ≠ "" ∧ t.recipient ≠ "" ∧
        0 < t.amount ∧ MIN_AMOUNT ≤ t.amount ∧ t.amount ≤ MAX_AMOUNT ∧
        t.timestamp ≠ 0 ∧ t.signature ≠ some "") →
      Block.from_dict H now b.toDict = .ok b) ∧
    (∀ (H : HashFn) (now : ℚ) (i : Int) (ts : ℚ) (ph hs : String)
        (n : Int) (txds : List TxData), 0 ≤ i → ph.length = 64 →
      ∃ b' : Block,
        Block.from_dict H now
          { index := some i, timestamp := some ts, previous_hash := some ph,
            hash := some hs, nonce := some n,
            transactions := some txds } = .ok b' ∧
        b'.transactions =
          txds.filterMap fun td => (Transaction.from_dict now td).toOption) := by
  constructor
  · intro H now b hidx hph hh hts htx
    unfold Block.from_dict Block.toDict
    dsimp only
    have htxs : (b.transactions.map Transaction.toData).filterMap
        (fun td => (Transaction.from_dict now td).toOption) =
          b.transactions := by
      rw [List.filterMap_map]
      apply filterMap_eq_self
      intro t ht
      obtain ⟨hs, hr, ha0, hmin, hmax, hts2, hsig⟩ := htx t ht
      simp only [Function.comp_apply]
      rw [tx_roundtrip now t hs hr ha0 hmin hmax hts2 hsig]
      rfl
    rw [htxs]
    unfold Block.init
    rw [if_neg (by omega), if_neg (by omega)]
    simp [tsOr, hts, hh]
  · intro H now i ts ph hs n txds hidx hph
    unfold Block.from_dict
    dsimp only
    unfold Block.init
    rw [if_neg (by omega), if_neg (by omega)]
    exact ⟨_, rfl, rfl⟩

/-- C10 (witness): the genesis template round-trips, and a dictionary with
one unparsable transaction entry deserializes with that entry omitted. -/
theorem block_serialization_witness :
    Block.from_dict hashModel 0 (genesisTemplate hashModel).toDict =
      .ok (genesisTemplate hashModel) ∧
    (∃ b' : Block,
      Block.from_dict hashModel 0
        { index := some 0, timestamp := some 1,
          previous_hash := some (zeros 64), hash := some "x",
          nonce := some 0, transactions := some [badTxData] } = .ok b' ∧
      b'.transactions =
        [badTxData].filterMap
          fun td => (Transaction.from_dict 0 td).toOption) ∧
    ([badTxData].filterMap
      fun td => (Transaction.from_dict 0 td).toOption) = [] :=
  ⟨block_serialization_spec.1 hashModel 0 (genesisTemplate hashModel)
     (by decide) (by decide) (by decide) (by decide)
     (by intro t ht; simp [genesisTemplate] at ht),
   block_serialization_spec.2 hashModel 0 0 1 (zeros 64) "x" 0 [badTxData]
     (by decide) (by decide),
   by decide⟩

/-- C10 (counterexample): `bE`'s only transaction `txE` carries the
empty-string signature; the block and transaction timestamps are non-zero
and the transaction deserializes successfully, yet
`from_dict (to_dict bE)` returns a block different from `bE` (the
serialized form drops the falsy signature, which deserializes to `none`),
contradicting the claimed field-for-field round-trip. -/
theorem block_roundtrip_cex :
    bE.transactions = [txE] ∧
    txE.signature = some "" ∧
    bE.timestamp ≠ 0 ∧
    txE.timestamp ≠ 0 ∧
    exceptOk (Transaction.from_dict 0 txE.toData) = true ∧
    exceptOk (Block.from_dict hashModel 0 bE.toDict) = true ∧
    Block.from_dict hashModel 0 bE.toDict ≠ .ok bE := by
  decide

end ShieldCoin